import Mathlib

/-!
Verification of the AI Response Extraction & Answer-Merging Engine of the
business-model-canvas generator (`src/App.tsx`).

The TypeScript source is shallowly embedded: JavaScript values flowing out of
`JSON.parse` are modelled by the inductive `Json` (with JS `undefined`
modelled as `Option.none` where a property lookup can miss), strings are Lean
`String`s, and the handful of regular expressions in the source are
hand-translated into explicit character scanners whose semantics mirror the
JavaScript regex engine (leftmost match, greedy/lazy quantifiers, `lastIndex`
advancement), as documented at each definition.

Modelling notes, applying to the whole file:
* JSON numbers are modelled as `Int`; the embedded `JSON.parse` rejects
  fraction/exponent parts.  No specification claim involves non-integer
  numbers.
* `\u` escapes denoting surrogate code units are rejected by the embedded
  parser (Lean `Char` holds scalar values only); no claim involves them.
* `String.prototype.trim` / regex `\s` are modelled over the ASCII whitespace
  characters (space, tab, newline, carriage return, vertical tab, form feed);
  the JSON grammar's whitespace is exactly space, tab, newline, carriage
  return, as in the standard.
-/

namespace BMC

/-- A JavaScript value produced by `JSON.parse`: the object form keeps the
insertion order of its members, and member keys are unique (the embedded
parser overwrites duplicates in place, as JS property assignment does). -/
inductive Json where
  | null : Json
  | bool : Bool → Json
  | num : Int → Json
  | str : String → Json
  | arr : List Json → Json
  | obj : List (String × Json) → Json
deriving Inhabited, Repr

/-- Whitespace recognized by JavaScript `trim` and regex `\s`
(ASCII fragment). -/
def jsWsChar (c : Char) : Bool :=
  c == ' ' || c == '\t' || c == '\n' || c == '\r' || c == '\x0b' || c == '\x0c'

/-- `String.prototype.trim()`. -/
def jsTrim (s : String) : String :=
  String.mk (((s.data.dropWhile jsWsChar).reverse.dropWhile jsWsChar).reverse)

/-- Property lookup on an object's member list (keys are unique, so the first
match is the JS lookup). `none` is JS `undefined`. -/
def jGet (kvs : List (String × Json)) (k : String) : Option Json :=
  (kvs.find? (fun kv => kv.1 == k)).map (fun kv => kv.2)

/-- JS property access `value[k]` for a parsed JSON value: only objects carry
properties that matter here (string/array index properties other than the
ones accessed never collide with the field names used by the source). -/
def jprop : Json → String → Option Json
  | .obj kvs, k => jGet kvs k
  | _, _ => none

/-- JS nullish coalescing `a ?? b` on two possibly-missing property values:
`undefined` and `null` fall through to `b`. -/
def nullishOr (a b : Option Json) : Option Json :=
  match a with
  | none => b
  | some .null => b
  | some v => some v

/-- JS truthiness test (negated): `!value` for a parsed JSON value. -/
def jsFalsy : Json → Bool
  | .null => true
  | .bool b => !b
  | .num n => n == 0
  | .str s => s == ""
  | .arr _ => false
  | .obj _ => false

mutual

/-- Size measure on `Json`: every constructor counts 1, strings additionally
count their length, object members additionally count 1 each.  Chosen so that
a value produced by parsing a string `s` is strictly smaller than
`Json.str s` (see `parseJson_size_le`). -/
def jsonSize : Json → Nat
  | .null => 1
  | .bool _ => 1
  | .num _ => 1
  | .str s => s.length + 1
  | .arr xs => 1 + jsonSizeList xs
  | .obj kvs => 1 + jsonSizeMembers kvs

/-- Sum of `jsonSize` over a list of values. -/
def jsonSizeList : List Json → Nat
  | [] => 0
  | x :: xs => jsonSize x + jsonSizeList xs

/-- Sum of `jsonSize` (+1 per member) over an object's member list. -/
def jsonSizeMembers : List (String × Json) → Nat
  | [] => 0
  | kv :: r => jsonSize kv.2 + 1 + jsonSizeMembers r

end

/-- Hexadecimal digit for `JSON.stringify`'s control-character escapes. -/
def hexDigitChar (n : Nat) : Char :=
  if n < 10 then Char.ofNat ('0'.toNat + n) else Char.ofNat ('a'.toNat + n - 10)

/-- One character of `JSON.stringify` string-escaping. -/
def jsonEscapeChar (c : Char) : List Char :=
  if c == '"' then ['\\', '"']
  else if c == '\\' then ['\\', '\\']
  else if c == '\x08' then ['\\', 'b']
  else if c == '\x0c' then ['\\', 'f']
  else if c == '\n' then ['\\', 'n']
  else if c == '\r' then ['\\', 'r']
  else if c == '\t' then ['\\', 't']
  else if c.toNat < 0x20 then
    ['\\', 'u', '0', '0', hexDigitChar (c.toNat / 16), hexDigitChar (c.toNat % 16)]
  else [c]

/-- `JSON.stringify` of a string. -/
def quoteJsonString (s : String) : String :=
  String.mk ('"' :: s.data.foldr (fun c acc => jsonEscapeChar c ++ acc) ['"'])

mutual

/-- `JSON.stringify` of a parsed JSON value (no replacer, no indentation). -/
def jsonStringify : Json → String
  | .null => "null"
  | .bool true => "true"
  | .bool false => "false"
  | .num n => toString n
  | .str s => quoteJsonString s
  | .arr xs => "[" ++ String.intercalate "," (jsonStringifyList xs) ++ "]"
  | .obj kvs => "\x7b" ++ String.intercalate "," (jsonStringifyMembers kvs) ++ "\x7d"

/-- `JSON.stringify` of each element of an array. -/
def jsonStringifyList : List Json → List String
  | [] => []
  | x :: xs => jsonStringify x :: jsonStringifyList xs

/-- `JSON.stringify` of each member of an object. -/
def jsonStringifyMembers : List (String × Json) → List String
  | [] => []
  | kv :: r => (quoteJsonString kv.1 ++ ":" ++ jsonStringify kv.2) :: jsonStringifyMembers r

end

/-- `asText` (src/App.tsx:154-165): coerce an optional JS value to text.
Strings are trimmed; numbers and booleans are stringified; truthy objects are
JSON-serialized; `undefined` (`none`), `null`, and the remaining falsy
primitives produce the empty string. -/
def asText : Option Json → String
  | none => ""
  | some .null => ""
  | some (.str s) => jsTrim s
  | some (.num n) => toString n
  | some (.bool b) => toString b
  | some (.arr xs) => jsonStringify (.arr xs)
  | some (.obj kvs) => jsonStringify (.obj kvs)

/-- Insert-or-overwrite of an object member, keeping the original insertion
position on overwrite — JS property assignment, used for duplicate keys met
during parsing. -/
def upsert (kvs : List (String × Json)) (k : String) (v : Json) : List (String × Json) :=
  match kvs with
  | [] => [(k, v)]
  | (k', v') :: r => if k' == k then (k', v) :: r else (k', v') :: upsert r k v

/-- Whitespace of the JSON grammar (what `JSON.parse` skips between tokens). -/
def jsonWsChar (c : Char) : Bool :=
  c == ' ' || c == '\t' || c == '\n' || c == '\r'

/-- Skip JSON whitespace. -/
def skipWs (cs : List Char) : List Char :=
  cs.dropWhile jsonWsChar

/-- Value of a hexadecimal digit, if any. -/
def hexVal? (c : Char) : Option Nat :=
  if '0' ≤ c ∧ c ≤ '9' then some (c.toNat - '0'.toNat)
  else if 'a' ≤ c ∧ c ≤ 'f' then some (c.toNat - 'a'.toNat + 10)
  else if 'A' ≤ c ∧ c ≤ 'F' then some (c.toNat - 'A'.toNat + 10)
  else none

/-- Decoded character of a single-character JSON escape sequence, if the
escape is legal. -/
def escChar? (e : Char) : Option Char :=
  if e == '"' then some '"'
  else if e == '\\' then some '\\'
  else if e == '/' then some '/'
  else if e == 'b' then some '\x08'
  else if e == 'f' then some '\x0c'
  else if e == 'n' then some '\n'
  else if e == 'r' then some '\r'
  else if e == 't' then some '\t'
  else none

/-- Body of a JSON string literal, after the opening quote: returns the
decoded characters and the input remaining after the closing quote.
Unescaped control characters are rejected, as in strict JSON. -/
def parseStringBody : List Char → Option (List Char × List Char)
  | [] => none
  | c :: r =>
    if c == '"' then some ([], r)
    else if c == '\\' then
      match r with
      | [] => none
      | e :: r2 =>
        if e == 'u' then
          match r2 with
          | h1 :: h2 :: h3 :: h4 :: r3 =>
            match hexVal? h1, hexVal? h2, hexVal? h3, hexVal? h4 with
            | some a, some b, some c3, some d =>
              let code := ((a * 16 + b) * 16 + c3) * 16 + d
              if 0xd800 ≤ code ∧ code ≤ 0xdfff then none
              else (parseStringBody r3).map (fun p => (Char.ofNat code :: p.1, p.2))
            | _, _, _, _ => none
          | _ => none
        else
          match escChar? e with
          | some ec => (parseStringBody r2).map (fun p => (ec :: p.1, p.2))
          | none => none
    else if c.toNat < 0x20 then none
    else (parseStringBody r).map (fun p => (c :: p.1, p.2))

/-- Digits of a JSON integer literal (no leading zero except "0" itself);
fraction and exponent parts are rejected (see the modelling notes). -/
def parseNumTail (sign : Int) (cs : List Char) : Option (Json × List Char) :=
  let ds := cs.takeWhile Char.isDigit
  if ds.isEmpty then none
  else if ds.headD '0' == '0' && ds.length > 1 then none
  else
    let rest := cs.drop ds.length
    let startsFrac :=
      match rest.head? with
      | some r0 => r0 == '.' || r0 == 'e' || r0 == 'E'
      | none => false
    if startsFrac then none
    else
      let n : Nat := ds.foldl (fun acc c => acc * 10 + (c.toNat - '0'.toNat)) 0
      some (.num (sign * Int.ofNat n), rest)

/-- A JSON number literal. -/
def parseNum (cs : List Char) : Option (Json × List Char) :=
  match cs with
  | '-' :: r => parseNumTail (-1) r
  | _ => parseNumTail 1 cs

mutual

/-- Fueled recursive-descent parser for a JSON value, mirroring strict
`JSON.parse`.  Returns the value and the unconsumed input.  The fuel only
bounds nesting depth; `s.length + 1` never runs out on a valid input because
every recursive call first consumes at least one character. -/
def parseVal : Nat → List Char → Option (Json × List Char)
  | 0, _ => none
  | n + 1, cs =>
    match skipWs cs with
    | 'n' :: 'u' :: 'l' :: 'l' :: r => some (.null, r)
    | 't' :: 'r' :: 'u' :: 'e' :: r => some (.bool true, r)
    | 'f' :: 'a' :: 'l' :: 's' :: 'e' :: r => some (.bool false, r)
    | '"' :: r =>
      match parseStringBody r with
      | some (l, rest) => some (.str (String.mk l), rest)
      | none => none
    | '[' :: r =>
      (match skipWs r with
       | ']' :: r2 => some (.arr [], r2)
       | r2 => parseElems n r2 [])
    | '\x7b' :: r =>
      (match skipWs r with
       | '\x7d' :: r2 => some (.obj [], r2)
       | r2 => parseMembers n r2 [])
    | r => parseNum r

/-- Elements of a non-empty JSON array, accumulating in reverse. -/
def parseElems : Nat → List Char → List Json → Option (Json × List Char)
  | 0, _, _ => none
  | n + 1, cs, acc =>
    match parseVal n cs with
    | none => none
    | some (v, rest) =>
      match skipWs rest with
      | ',' :: r2 => parseElems n r2 (v :: acc)
      | ']' :: r2 => some (.arr (v :: acc).reverse, r2)
      | _ => none

/-- Members of a non-empty JSON object, accumulating with `upsert` so that a
duplicate key overwrites in place, as JS property assignment does. -/
def parseMembers : Nat → List Char → List (String × Json) → Option (Json × List Char)
  | 0, _, _ => none
  | n + 1, cs, acc =>
    match skipWs cs with
    | '"' :: r =>
      match parseStringBody r with
      | none => none
      | some (kl, rest) =>
        match skipWs rest with
        | ':' :: r2 =>
          match parseVal n r2 with
          | none => none
          | some (v, rest2) =>
            let acc' := upsert acc (String.mk kl) v
            match skipWs rest2 with
            | ',' :: r3 => parseMembers n r3 acc'
            | '\x7d' :: r3 => some (.obj acc', r3)
            | _ => none
        | _ => none
    | _ => none

end

/-- `JSON.parse` on a whole string: one value, then only whitespace. -/
def parseJson (s : String) : Option Json :=
  match parseVal (s.length + 1) s.data with
  | some (v, rest) => if (skipWs rest).isEmpty then some v else none
  | none => none

/-! ## Form schema (Field Schema Registry) -/

/-- One question of a form page (src/App.tsx:16-20). -/
structure FormItem where
  area : String
  question : String
  help : String
deriving Repr, DecidableEq

/-- One form page (src/App.tsx:22-25). -/
structure FormPage where
  title : String
  items : List FormItem
deriving Repr, DecidableEq

/-- A character kept verbatim by `slugify`'s `[^a-z0-9]+` replacement. -/
def slugOk (c : Char) : Bool :=
  ('a' ≤ c && c ≤ 'z') || ('0' ≤ c && c ≤ '9')

mutual

/-- Replace every maximal run of non-`[a-z0-9]` characters by a single
dash — the `.replace(/[^a-z0-9]+/g, '-')` step of `slugify`.  `skipBadRun`
consumes the remainder of a run already replaced. -/
def collapseRuns : List Char → List Char
  | [] => []
  | c :: rest =>
    if slugOk c then c :: collapseRuns rest
    else '-' :: skipBadRun rest

/-- Consume the tail of a non-`[a-z0-9]` run, then resume `collapseRuns`. -/
def skipBadRun : List Char → List Char
  | [] => []
  | c :: rest =>
    if slugOk c then c :: collapseRuns rest
    else skipBadRun rest

end

/-- `slugify` (src/App.tsx:112-118).  JS lower-cases with full Unicode rules
and strips combining marks after an NFD normalization; both are modelled on
the ASCII fragment (ASCII lower-casing, mark-stripping as the identity),
which is exact for every string this file evaluates the schema on. -/
def slugify (s : String) : String :=
  let lowered := s.data.map Char.toLower
  let collapsed := collapseRuns lowered
  let noLead := match collapsed with
    | '-' :: r => r
    | l => l
  let noTrail := match noLead.reverse with
    | '-' :: r => r.reverse
    | _ => noLead
  String.mk noTrail

/-- `makeFieldId` (src/App.tsx:120-121). -/
def makeFieldId (pageIndex : Nat) (question : String) : String :=
  "step-" ++ toString pageIndex ++ "-" ++ slugify question

/-- A Field Descriptor (src/App.tsx:79-83). -/
structure FormFieldDescriptor where
  fieldId : String
  pageTitle : String
  question : String
deriving Repr, DecidableEq

/-- `formFieldDescriptors` (src/App.tsx:138-144), parameterized by the form
pages (the source reads them from the static `form-pages.json`). -/
def formFieldDescriptors (pages : List FormPage) : List FormFieldDescriptor :=
  pages.enum.flatMap (fun pi =>
    pi.2.items.map (fun item =>
      { fieldId := makeFieldId pi.1 item.question
        pageTitle := pi.2.title
        question := item.question }))

/-- `validFieldIdSet` (src/App.tsx:146): membership is tested with
`List.contains`, matching the JS `Set.has`. -/
def validFieldIds (pages : List FormPage) : List String :=
  (formFieldDescriptors pages).map (fun f => f.fieldId)

/-! ## The regular expressions of the source, as explicit scanners -/

/-- `trimmed.match(/\x7b[\s\S]+\x7d/)` (src/App.tsx:195).  The regex engine
takes the leftmost starting brace from which the greedy `[\s\S]+` can still
reach a closing brace with at least one character in between; since `[\s\S]`
matches everything, that is exactly: the span from the first `{` of the
string to the last `}` of the string, provided they are at least two
positions apart (a later starting `{` can never succeed once the first one
fails, because the same last `}` bounds both). -/
def braceSpan (s : String) : Option String :=
  let cs := s.data
  match cs.findIdx? (fun c => c == '\x7b') with
  | none => none
  | some i =>
    match cs.reverse.findIdx? (fun c => c == '\x7d') with
    | none => none
    | some jr =>
      let j := cs.length - 1 - jr
      if i + 2 ≤ j then some (String.mk ((cs.drop i).take (j - i + 1))) else none

/-- Does the input start with a triple-backtick fence marker? -/
def isFenceAt : List Char → Bool
  | '\x60' :: '\x60' :: '\x60' :: _ => true
  | _ => false

/-- Shortest non-empty prefix after which a fence marker starts: the lazy
`([\s\S]+?)` body followed by the closing fence.  `none` when no fence marker
occurs at offset ≥ 1. -/
def scanClose (cs : List Char) : Option (List Char) :=
  match cs with
  | [] => none
  | c :: r => (takeUntilFence r).map (fun cap => c :: cap)
where
  takeUntilFence (l : List Char) : Option (List Char) :=
    if isFenceAt l then some []
    else
      match l with
      | [] => none
      | c :: r => (takeUntilFence r).map (fun cap => c :: cap)

/-- The `\s*([\s\S]+?)` + closing-fence part of
`/\x60\x60\x60(?:json)?\s*([\s\S]+?)\x60\x60\x60/` starting at `b`: the
greedy `\s*` first takes the whole whitespace run; if no closing fence lies
strictly beyond a non-empty body, the engine backtracks one whitespace
character so the body can be that single character with the fence right
after it (further backtracking can never help: every candidate closing
position inside the whitespace run is a whitespace character, not a
backtick). -/
def fenceBody (b : List Char) : Option (List Char) :=
  let k := (b.takeWhile jsWsChar).length
  let rest := b.drop k
  match scanClose rest with
  | some cap => some cap
  | none =>
    if k ≥ 1 && isFenceAt rest then some [b.getD (k - 1) ' ']
    else none

/-- One attempt of the fenced-block regex at an opening fence: the greedy
`(?:json)?` first tries to consume a literal `json`. -/
def fenceAttempt (after : List Char) : Option (List Char) :=
  let withJson :=
    match after with
    | 'j' :: 's' :: 'o' :: 'n' :: r => fenceBody r
    | _ => none
  match withJson with
  | some cap => some cap
  | none => fenceBody after

/-- Leftmost-match loop of
`text.match(/\x60\x60\x60(?:json)?\s*([\s\S]+?)\x60\x60\x60/)`: on failure at
an opening fence the engine advances one position.  Returns capture group 1
(src/App.tsx:304, 410, 542). -/
def fencedGroupAux : List Char → Option String
  | [] => none
  | cs@(_ :: rest) =>
    if isFenceAt cs then
      match fenceAttempt (cs.drop 3) with
      | some cap => some (String.mk cap)
      | none => fencedGroupAux rest
    else fencedGroupAux rest

/-- First fenced code block of a string (capture group of the regex). -/
def fencedGroup (s : String) : Option String :=
  fencedGroupAux s.data

/-- A slot label of the TAM/SAM/SOM section regex. -/
inductive TsSlot where
  | tam
  | sam
  | som
deriving Repr, DecidableEq

/-- Case-insensitive `(TAM|SAM|SOM)` at the head of the input (the regex has
the `i` flag; non-ASCII letters never case-fold onto ASCII ones under the
non-Unicode-mode canonicalization, so ASCII lower-casing is exact). -/
def slotAt (cs : List Char) : Option TsSlot :=
  match cs with
  | c1 :: c2 :: c3 :: _ =>
    let l1 := c1.toLower
    let l2 := c2.toLower
    let l3 := c3.toLower
    if l1 == 't' && l2 == 'a' && l3 == 'm' then some .tam
    else if l1 == 's' && l2 == 'a' && l3 == 'm' then some .sam
    else if l1 == 's' && l2 == 'o' && l3 == 'm' then some .som
    else none
  | _ => none

/-- The lookahead `(?=(TAM|SAM|SOM)[^:]*:|$)`'s first alternative at the head
of the input: a label here followed eventually by a colon. -/
def labelColonAt (cs : List Char) : Bool :=
  (slotAt cs).isSome && (cs.drop 3).contains ':'

/-- Remainder after the first colon: the deterministic match of `[^:]*:`
(the greedy class cannot cross a colon, so it stops exactly at the first
one). -/
def splitAtColon : List Char → Option (List Char)
  | [] => none
  | ':' :: r => some r
  | _ :: r => splitAtColon r

/-- The lazy `([\s\S]*?)` before the lookahead: split at the earliest
position satisfying the lookahead's label alternative, or take everything
(the `$` alternative). -/
def captureUntilLabel (cs : List Char) : List Char × List Char :=
  match cs with
  | [] => ([], [])
  | c :: r =>
    if labelColonAt cs then ([], cs)
    else
      let p := captureUntilLabel r
      (c :: p.1, p.2)

/-- The `sections` record filled by the regex loop (src/App.tsx:203-207). -/
structure TsSections where
  tam : String
  sam : String
  som : String
deriving Repr, DecidableEq

/-- `sections[key] = match[2].trim()`. -/
def setSlot (secs : TsSections) : TsSlot → String → TsSections
  | .tam, v => { secs with tam := v }
  | .sam, v => { secs with sam := v }
  | .som, v => { secs with som := v }

/-- The `while ((match = regex.exec(trimmed)) !== null)` loop over
`/(TAM|SAM|SOM)[^:]*:\s*([\s\S]*?)(?=(TAM|SAM|SOM)[^:]*:|$)/gi`
(src/App.tsx:208-213): find the leftmost label followed by a colon, skip the
colon and the greedy `\s*`, capture lazily up to the next label-colon
position (or the end), record the trimmed capture under the label
(later matches of the same label overwrite), and continue scanning at the
lookahead position (`lastIndex` is the zero-width lookahead's position).
Every match consumes at least four characters, so fuel `length + 1` never
runs out. -/
def scanSectionsLoop : Nat → List Char → TsSections → TsSections
  | 0, _, secs => secs
  | _ + 1, [], secs => secs
  | n + 1, cs@(_ :: rest), secs =>
    match slotAt cs with
    | none => scanSectionsLoop n rest secs
    | some slot =>
      match splitAtColon (cs.drop 3) with
      | none => scanSectionsLoop n rest secs
      | some afterColon =>
        let afterWs := afterColon.dropWhile jsWsChar
        let p := captureUntilLabel afterWs
        scanSectionsLoop n p.2 (setSlot secs slot (jsTrim (String.mk p.1)))

/-- Run the section-scanning regex loop over a whole string. -/
def scanSections (s : String) : TsSections :=
  scanSectionsLoop (s.length + 1) s.data ⟨"", "", ""⟩

/-! ## Structured extractors -/

/-- The structured result of the quantitative-triple extractor. -/
structure TamSamSom where
  tam : String
  sam : String
  som : String
deriving Repr, DecidableEq

/-- JSON-tier acceptance of `parseAiResult`'s `tryParseJson`
(src/App.tsx:175-188) on an already-parsed value: each slot is read from the
exact-case key, falling back (nullish coalescing) to the upper-case key, and
coerced with `asText`; all three must be non-empty. -/
def tamFromJson (j : Json) : Option TamSamSom :=
  let tam := asText (nullishOr (jprop j "tam") (jprop j "TAM"))
  let sam := asText (nullishOr (jprop j "sam") (jprop j "SAM"))
  let som := asText (nullishOr (jprop j "som") (jprop j "SOM"))
  if tam != "" && sam != "" && som != "" then some ⟨tam, sam, som⟩ else none

/-- `tryParseJson` of `parseAiResult`: parse, then accept. -/
def tryTamJson (raw : String) : Option TamSamSom :=
  match parseJson raw with
  | some j => tamFromJson j
  | none => none

/-- The regex tier of `parseAiResult` (src/App.tsx:203-219): run the section
scan and require all three sections non-empty. -/
def regexTierTam (trimmed : String) : Option TamSamSom :=
  let secs := scanSections trimmed
  if secs.tam != "" && secs.sam != "" && secs.som != "" then
    some ⟨secs.tam, secs.sam, secs.som⟩
  else none

/-- `parseAiResult` (src/App.tsx:167-220), the quantitative-triple
extractor: empty-trim guard, whole-text JSON tier, brace-span JSON tier,
then the regex section scan requiring all three sections non-empty. -/
def parseAiResult (text : String) : Option TamSamSom :=
  let trimmed := jsTrim text
  if trimmed == "" then none
  else
    match tryTamJson trimmed with
    | some r => some r
    | none =>
      let fromBlock :=
        match braceSpan trimmed with
        | some block => tryTamJson block
        | none => none
      match fromBlock with
      | some r => some r
      | none => regexTierTam trimmed

/-- `applyTamSamSomResult` (src/App.tsx:330-347): positional mapping of the
three extracted strings onto the first three field ids of the target page. -/
def applyTamSamSomResult (pages : List FormPage) (text : String) (stepIndex : Nat) :
    Except String (List (String × String)) :=
  match parseAiResult text with
  | none => .error "No pudimos interpretar la respuesta del modelo."
  | some structured =>
    let items := ((pages.get? stepIndex).map (fun p => p.items)).getD []
    let itemIds := items.map (fun item => makeFieldId stepIndex item.question)
    match itemIds with
    | id0 :: id1 :: id2 :: _ =>
      .ok [(id0, structured.tam), (id1, structured.sam), (id2, structured.som)]
    | _ => .error "No encontramos los campos de TAM, SAM y SOM en el formulario."

/-- JS `x || y` for a string `x`: the empty string is falsy. -/
def strOr (s fallbackV : String) : String :=
  if s == "" then fallbackV else s

/-- Left-associated nullish-coalescing chain `entry.k1 ?? entry.k2 ?? …`. -/
def jprops (entry : Json) (keys : List String) : Option Json :=
  keys.foldr (fun k acc => nullishOr (jprop entry k) acc) none

/-- A normalized competitor row (src/App.tsx:60-65). -/
structure CompetitorEntry where
  name : String
  website : String
  description : String
  successLikelihood : String
deriving Repr, DecidableEq

/-- Normalization of one array element of the competitor list
(src/App.tsx:244-290): non-objects are dropped (`filter(Boolean)`), each
attribute reads the first present non-nullish alias and falls back to a fixed
default when the coerced text is empty.  JS arrays satisfy the
`typeof entry === 'object'` test but carry none of the alias properties, so
they take the object path with every lookup missing. -/
def competitorFromRecord (entry : Json) : Option CompetitorEntry :=
  match entry with
  | .obj _ | .arr _ =>
    some
      { name := strOr (asText (jprops entry ["name", "Nombre", "title", "company", "organisation"]))
          "Competidor sin nombre"
        website := strOr (asText (jprops entry ["website", "url", "link", "site", "Web", "web"]))
          "N/D"
        description := strOr (asText (jprops entry ["description", "descripcion", "summary", "detalle", "detalles"]))
          "Descripción no disponible"
        successLikelihood := strOr (asText (jprops entry ["successLikelihood", "success_probability", "successProbability", "success", "probability", "probabilidad"]))
          "Sin estimación" }
  | _ => none

/-- The list acceptance of `parseCompetitorEntries`'s JSON tier
(src/App.tsx:233-237): a bare array, or an object whose `competitors`
property is an array. -/
def competitorListFromJson (parsed : Json) : Option (List Json) :=
  match parsed with
  | .arr xs => some xs
  | .obj kvs =>
    match jGet kvs "competitors" with
    | some (.arr xs) => some xs
    | _ => none
  | _ => none

/-- `tryParse` of `parseCompetitorEntries` (src/App.tsx:230-297). -/
def tryCompetitors (raw : String) : Option (List CompetitorEntry) :=
  match parseJson raw with
  | none => none
  | some parsed =>
    match competitorListFromJson parsed with
    | none => none
    | some list =>
      if list.isEmpty then none
      else
        let normalized := list.filterMap competitorFromRecord
        if normalized.isEmpty then none else some normalized

/-- `parseCompetitorEntries` (src/App.tsx:224-313), the tabular-list
extractor: empty-trim guard, whole-text JSON tier, fenced-block JSON tier;
no further fallback. -/
def parseCompetitorEntries (text : String) : Option (List CompetitorEntry) :=
  let trimmed := jsTrim text
  if trimmed == "" then none
  else
    match tryCompetitors trimmed with
    | some r => some r
    | none =>
      match fencedGroup trimmed with
      | some block => tryCompetitors block
      | none => none

/-- `sanitizeTableCell` (src/App.tsx:222): escape pipes, then trim. -/
def sanitizeTableCell (value : String) : String :=
  jsTrim (String.mk (value.data.flatMap (fun c => if c == '|' then ['\\', '|'] else [c])))

/-- `formatCompetitorTable` (src/App.tsx:315-328). -/
def formatCompetitorTable (entries : List CompetitorEntry) : String :=
  let header := "Nombre | Web | Descripción | Probabilidad de Éxito"
  let separator := "--- | --- | --- | ---"
  let rows := entries.map (fun e =>
    String.intercalate " | "
      [sanitizeTableCell e.name, sanitizeTableCell e.website,
       sanitizeTableCell e.description, sanitizeTableCell e.successLikelihood])
  String.intercalate "\n" (header :: separator :: rows)

/-- `applyCompetitorsResult` (src/App.tsx:349-365): the whole table is a
single value for the first field of the target page (an empty question text
is falsy and also raises the missing-field error). -/
def applyCompetitorsResult (pages : List FormPage) (text : String) (stepIndex : Nat) :
    Except String (List (String × String)) :=
  match parseCompetitorEntries text with
  | none => .error "No pudimos interpretar la lista de competidores devuelta por la IA."
  | some entries =>
    match (pages.get? stepIndex).bind (fun p => p.items.head?) with
    | none => .error "No encontramos el campo de competidores en el formulario."
    | some item =>
      if item.question == "" then
        .error "No encontramos el campo de competidores en el formulario."
      else
        .ok [(makeFieldId stepIndex item.question, formatCompetitorTable entries)]

/-- The structured result of the fixed-object (Porter) extractor
(src/App.tsx:369-375). -/
structure PorterResult where
  clientPower : String
  supplierPower : String
  substitutesThreat : String
  newEntrantsThreat : String
  competitiveRivalry : String
deriving Repr, DecidableEq

/-- JSON-tier acceptance of `parsePorterResult` (src/App.tsx:381-403) on an
already-parsed value: all five keys must be present with string values. -/
def porterFromJson (j : Json) : Option PorterResult :=
  match jprop j "clientPower", jprop j "supplierPower", jprop j "substitutesThreat",
      jprop j "newEntrantsThreat", jprop j "competitiveRivalry" with
  | some (.str a), some (.str b), some (.str c), some (.str d), some (.str e) =>
    some ⟨a, b, c, d, e⟩
  | _, _, _, _, _ => none

/-- `tryParseJson` of `parsePorterResult`: parse, then accept. -/
def tryPorterJson (raw : String) : Option PorterResult :=
  (parseJson raw).bind porterFromJson

/-- `parsePorterResult` (src/App.tsx:367-419), the fixed-object extractor:
empty-trim guard, whole-text JSON tier, fenced-block JSON tier; no regex
fallback of any kind. -/
def parsePorterResult (text : String) : Option PorterResult :=
  let trimmed := jsTrim text
  if trimmed == "" then none
  else
    match tryPorterJson trimmed with
    | some r => some r
    | none =>
      match fencedGroup trimmed with
      | some block => tryPorterJson block
      | none => none

/-- `applyPorterResult` (src/App.tsx:421-441): positional mapping of the five
extracted strings onto the first five field ids of the target page. -/
def applyPorterResult (pages : List FormPage) (text : String) (stepIndex : Nat) :
    Except String (List (String × String)) :=
  match parsePorterResult text with
  | none => .error "No pudimos interpretar el análisis Porter devuelto por la IA."
  | some structured =>
    let items := ((pages.get? stepIndex).map (fun p => p.items)).getD []
    let itemIds := items.map (fun item => makeFieldId stepIndex item.question)
    match itemIds with
    | id0 :: id1 :: id2 :: id3 :: id4 :: _ =>
      .ok [(id0, structured.clientPower), (id1, structured.supplierPower),
           (id2, structured.substitutesThreat), (id3, structured.newEntrantsThreat),
           (id4, structured.competitiveRivalry)]
    | _ => .error "No encontramos los 5 campos del análisis Porter en el formulario."

/-- `applyOnePagerResult` (src/App.tsx:443-459), the free-text-block
extractor: trim only; the whole block goes to the first field of the target
page. -/
def applyOnePagerResult (pages : List FormPage) (text : String) (stepIndex : Nat) :
    Except String (List (String × String)) :=
  let trimmed := jsTrim text
  if trimmed == "" then .error "La IA no devolvió contenido para el one-pager."
  else
    match (pages.get? stepIndex).bind (fun p => p.items.head?) with
    | none => .error "No encontramos el campo del one-pager en el formulario."
    | some item =>
      if item.question == "" then
        .error "No encontramos el campo del one-pager en el formulario."
      else
        .ok [(makeFieldId stepIndex item.question, trimmed)]

/-! ## Open-field-map extractor (`normalizePrefillEntries` and friends) -/

/-- Normalization of one array element of the open-field-map candidate list
(src/App.tsx:467-479): the element must be a JS object (arrays qualify for
`typeof` but carry none of the alias properties), the key is read from the
`fieldId`/`id`/`field`/`key` aliases and the value from the
`value`/`answer`/`text`/`content` aliases, both coerced with `asText` and
required non-empty. -/
def prefillEntryFromRecord (entry : Json) : Option (String × String) :=
  match entry with
  | .obj _ | .arr _ =>
    let fieldId := asText (jprops entry ["fieldId", "id", "field", "key"])
    let value := asText (jprops entry ["value", "answer", "text", "content"])
    if fieldId == "" || value == "" then none else some (fieldId, value)
  | _ => none

/-- The container keys tried, in order, on an object input
(src/App.tsx:487). -/
def normalizePrefillKeys : List String :=
  ["answers", "filledAnswers", "fields", "entries", "items", "data"]

/-- One step of the nested-container loop (src/App.tsx:488-495): if a key is
present (`!== undefined`), recurse on its value and stop as soon as a
non-empty entry list comes back; the second component accumulates how many
string-to-JSON re-submissions the recursion performed. -/
def tryNestedFold (kvs : List (String × Json))
    (recFn : Json → Option (List (String × String)) × Nat)
    (st : Option (List (String × String)) × Nat) (k : String) :
    Option (List (String × String)) × Nat :=
  match st with
  | (some es, c) => (some es, c)
  | (none, c) =>
    match jGet kvs k with
    | none => (none, c)
    | some sub =>
      let r := recFn sub
      match r.1 with
      | some es => if es.isEmpty then (none, c + r.2) else (some es, c + r.2)
      | none => (none, c + r.2)

/-- `normalizePrefillEntries` (src/App.tsx:461-523), instrumented: the first
component is the source function's result, the second counts how many times
the string case re-parsed its input as JSON and re-submitted the parsed value
to the routine.  The recursion of the source is modelled with fuel; by
`normalizeAux_stable`, any fuel from `jsonSize input` up computes the
source's (terminating) recursion. -/
def normalizeAux (valid : String → Bool) : Nat → Json → Option (List (String × String)) × Nat
  | 0, _ => (none, 0)
  | n + 1, input =>
    if jsFalsy input then (none, 0)
    else
      match input with
      | .arr xs =>
        let entries := xs.filterMap prefillEntryFromRecord
        (if entries.isEmpty then none else some entries, 0)
      | .obj kvs =>
        let nested := normalizePrefillKeys.foldl (tryNestedFold kvs (normalizeAux valid n)) (none, 0)
        match nested.1 with
        | some es => (some es, nested.2)
        | none =>
          let direct := kvs.filterMap (fun kv =>
            if valid kv.1 then
              let v := asText (some kv.2)
              if v == "" then none else some (kv.1, v)
            else none)
          (if direct.isEmpty then none else some direct, nested.2)
      | .str s =>
        match parseJson s with
        | some v =>
          let r := normalizeAux valid n v
          (r.1, r.2 + 1)
        | none => (none, 1)
      | _ => (none, 0)

/-- The result component of the instrumented routine at a given fuel. -/
def normalizePrefillFuel (valid : String → Bool) (n : Nat) (v : Json) :
    Option (List (String × String)) :=
  (normalizeAux valid n v).1

/-- `normalizePrefillEntries` itself: the fuel `jsonSize v` is enough
(`normalizeAux_stable`). -/
def normalizePrefillEntries (valid : String → Bool) (v : Json) :
    Option (List (String × String)) :=
  normalizePrefillFuel valid (jsonSize v) v

/-- `trimmed.indexOf(123)` / `lastIndexOf(125)` slice of `applyPrefillResult`
(src/App.tsx:548-553): the substring from the first `{` to the last `}`,
provided the latter comes strictly after the former. -/
def prefillBraceSlice (s : String) : Option String :=
  let cs := s.data
  match cs.findIdx? (fun c => c == '\x7b') with
  | none => none
  | some i =>
    match cs.reverse.findIdx? (fun c => c == '\x7d') with
    | none => none
    | some jr =>
      let j := cs.length - 1 - jr
      if i < j then some (String.mk ((cs.drop i).take (j - i + 1))) else none

/-- Insert-or-overwrite on a string-valued answer-map entry list, keeping the
original insertion position — JS object property assignment, used by the
`reduce` of `applyPrefillResult`. -/
def upsertStr (kvs : List (String × String)) (k v : String) : List (String × String) :=
  match kvs with
  | [] => [(k, v)]
  | (k', v') :: r => if k' == k then (k', v) :: r else (k', v') :: upsertStr r k v

/-- `applyPrefillResult` (src/App.tsx:525-570): empty-trim guard; whole-text,
fenced-block and brace-slice JSON tiers each feeding
`normalizePrefillEntries`; then the schema-membership and non-empty filter
(the `UnknownFieldsOnly` failure when nothing survives), and the final
trimmed update map. -/
def applyPrefillResult (valid : String → Bool) (text : String) :
    Except String (List (String × String)) :=
  let trimmed := jsTrim text
  if trimmed == "" then .error "La IA no devolvió un JSON con campos a pre-rellenar."
  else
    let tryParse (payload : String) : Option (List (String × String)) :=
      match parseJson payload with
      | some parsed => normalizePrefillEntries valid parsed
      | none => none
    let entries0 := tryParse trimmed
    let entries1 :=
      match entries0 with
      | some es => some es
      | none =>
        match fencedGroup trimmed with
        | some block => tryParse block
        | none => none
    let entries2 :=
      match entries1 with
      | some es => some es
      | none =>
        match prefillBraceSlice trimmed with
        | some slice => tryParse slice
        | none => none
    match entries2 with
    | none => .error "No pudimos interpretar los campos pre-rellenados enviados por la IA."
    | some entries =>
      let recognizedEntries := entries.filter (fun e => valid e.1 && jsTrim e.2 != "")
      if recognizedEntries.isEmpty then
        .error "La IA no devolvió campos conocidos para completar."
      else
        .ok (recognizedEntries.foldl (fun acc e => upsertStr acc e.1 (jsTrim e.2)) [])

/-! ## Result merging, import, flattener, context builder -/

/-- The fill-empty-only filter of `handlePrefillWithAi` (src/App.tsx:1061-1068):
keep a candidate entry only when its trimmed value is non-empty and the
Answer Map holds no non-empty (after trimming) value for its key.  The Answer
Map is modelled as a total function, a missing key holding `""` (JS
`undefined` and `""` behave identically under `!existing?.trim()`). -/
def sanitizedPrefillEntries (answers : String → String) (updates : List (String × String)) :
    List (String × String) :=
  updates.filter (fun kv => jsTrim kv.2 != "" && jsTrim (answers kv.1) == "")

/-- The failure of the fill-empty-only merge (src/App.tsx:1070-1074). -/
inductive PrefillMergeError where
  | noFieldsFilled
deriving Repr, DecidableEq

/-- The fill-empty-only merge of `handlePrefillWithAi` (src/App.tsx:1060-1077):
filter the candidates against the current Answer Map, fail with
`NoFieldsFilled` when nothing is left, otherwise overlay the surviving
entries (`{...prev, ...sanitizedUpdates}`). -/
def prefillMerge (answers : String → String) (updates : List (String × String)) :
    Except PrefillMergeError (String → String) :=
  let s := sanitizedPrefillEntries answers updates
  if s.isEmpty then .error .noFieldsFilled
  else .ok (s.foldl (fun acc kv => Function.update acc kv.1 kv.2) answers)

/-- One chunk's contribution in `extractMessageContent`
(src/App.tsx:580-591): falsy chunks and chunks without a string `text`
property contribute nothing; bare string chunks contribute themselves. -/
def chunkText (chunk : Json) : String :=
  if jsFalsy chunk then ""
  else
    match chunk with
    | .str s => s
    | .obj kvs =>
      match jGet kvs "text" with
      | some (.str t) => t
      | _ => ""
    | _ => ""

/-- `extractMessageContent` (src/App.tsx:572-594), the Content Flattener:
strings pass through, arrays map every chunk to its text, drop the empty
fragments (`filter(Boolean)`) and join with a newline, and every other shape
yields the empty string. -/
def extractMessageContent : Json → String
  | .str s => s
  | .arr chunks => String.intercalate "\n" ((chunks.map chunkText).filter (fun t => t != ""))
  | _ => ""

/-- `Object.entries` of a parsed JSON value: objects enumerate their members
in insertion order, arrays their elements under index keys, strings their
characters under index keys; numbers and booleans have no own enumerable
properties. -/
def jsEntries : Json → List (String × Json)
  | .obj kvs => kvs
  | .arr xs => xs.enum.map (fun p => (toString p.1, p.2))
  | .str s => s.data.enum.map (fun p => (toString p.1, Json.str (String.mk [p.2])))
  | _ => []

/-- `Math.max(0, Math.min(step, summaryStepIndex))` (src/App.tsx:819), with
`summaryStepIndex = formPages.length`. -/
def clampStep (numPages : Nat) (i : Int) : Nat :=
  (max 0 (min i (Int.ofNat numPages))).toNat

/-- The post-parse body of `parseImport` (src/App.tsx:796-827): reject a
falsy or non-object payload and a falsy `answers` property; keep exactly the
string-valued `answers` entries; clamp a numeric `currentStep` into
`[0, numPages]` and default anything else to step 0.  `none` models the
exception path (the caller shows an error and leaves all state unchanged). -/
def parseImportVal (numPages : Nat) (parsed : Json) : Option (List (String × String) × Nat) :=
  if jsFalsy parsed then none
  else
    match parsed with
    | .obj kvs =>
      match jGet kvs "answers" with
      | none => none
      | some a =>
        if jsFalsy a then none
        else
          let sanitizedAnswers := (jsEntries a).filterMap (fun kv =>
            match kv.2 with
            | .str s => some (kv.1, s)
            | _ => none)
          let importedStep :=
            match jGet kvs "currentStep" with
            | some (.num i) => clampStep numPages i
            | _ => 0
          some (sanitizedAnswers, importedStep)
    | _ => none

/-- `parseImport` (src/App.tsx:796-827) on the raw file text: `JSON.parse`
may throw (also reported as `none`). -/
def parseImport (numPages : Nat) (text : String) : Option (List (String × String) × Nat) :=
  (parseJson text).bind (parseImportVal numPages)

/-- The fixed sentinel phrase of the Context Builder. -/
def noAnswersSentinel : String := "Sin respuestas previas disponibles."

/-- `buildBusinessContext` (src/App.tsx:916-942), the Context Builder: for a
non-positive bound return the sentinel; otherwise render each page strictly
before the bound whose items have a non-empty trimmed answer as a
title-headed block of `- question: trimmed answer` lines, join the blocks
with blank lines, and fall back to the sentinel when no page contributes. -/
def buildBusinessContext (pages : List FormPage) (answers : String → String)
    (targetStepIndex : Int) : String :=
  if targetStepIndex ≤ 0 then noAnswersSentinel
  else
    let sections := (pages.take targetStepIndex.toNat).enum.filterMap (fun pi =>
      let entries := pi.2.items.filterMap (fun item =>
        let answer := answers (makeFieldId pi.1 item.question)
        if jsTrim answer == "" then none
        else some ("- " ++ item.question ++ ": " ++ jsTrim answer))
      if entries.isEmpty then none
      else some (pi.2.title ++ ":\n" ++ String.intercalate "\n" entries))
    if sections.isEmpty then noAnswersSentinel
    else String.intercalate "\n\n" sections

/-! ## Specification-side definitions

The definitions in this section render the specification's own wording of a
behaviour, to be compared with the embedded source functions above.  They are
written from the spec text, not from the source. -/

/-- Balanced-brace prefix starting inside a `{`-run at the given depth,
helper for `firstTopLevelBraceSpan`. -/
def balancedSpan : List Char → Nat → Option (List Char)
  | [], _ => none
  | c :: r, depth =>
    if c == '\x7b' then (balancedSpan r (depth + 1)).map (fun l => c :: l)
    else if c == '\x7d' then
      if depth == 1 then some [c]
      else if depth == 0 then none
      else (balancedSpan r (depth - 1)).map (fun l => c :: l)
    else (balancedSpan r depth).map (fun l => c :: l)

/-- Spec wording (§4.3): "the first top-level `{...}` span" — from the first
opening brace to the brace that closes it at top level. -/
def firstTopLevelBraceSpan (s : String) : Option String :=
  let cs := s.data.dropWhile (fun c => c != '\x7b')
  if cs.isEmpty then none else (balancedSpan cs 0).map String.mk

/-- Spec wording of the quantitative-triple extractor's three-tier fallback
(§4.3, and claim C2): (1) parse the entire trimmed text as JSON; (2) if that
fails, locate the first fenced code block (triple backticks, optionally
annotated `json`) or, failing that, the first top-level `{...}` span, and
parse its contents as JSON; (3) if both JSON attempts fail, the regex-driven
label-based section scan; the result is the first tier to succeed. -/
def specParseAiResult (text : String) : Option TamSamSom :=
  let trimmed := jsTrim text
  match tryTamJson trimmed with
  | some r => some r
  | none =>
    let target :=
      match fencedGroup trimmed with
      | some block => some block
      | none => firstTopLevelBraceSpan trimmed
    let tier2 :=
      match target with
      | some block => tryTamJson block
      | none => none
    match tier2 with
    | some r => some r
    | none => regexTierTam trimmed

/-- Spec wording of the Content Flattener's per-chunk rule (§4.2, claim C4):
"take every chunk's `text` field when present (chunks without usable text
contribute nothing)". -/
def specChunkText : Json → String
  | .obj kvs =>
    match jGet kvs "text" with
    | some (.str t) => t
    | _ => ""
  | _ => ""

/-- Spec wording of the Context Builder's section list (§4.5, claim C7): the
non-empty answers of the pages strictly before the bound, grouped by page
title in form-declaration order with items in per-page declaration order,
each answer rendered as `- <question>: <trimmed value>`, pages contributing
nothing omitted entirely (a non-positive bound takes no pages at all). -/
def specContextSections (pages : List FormPage) (answers : String → String)
    (bound : Int) : List String :=
  (pages.take bound.toNat).enum.filterMap (fun pi =>
    let entries := pi.2.items.filterMap (fun item =>
      let answer := answers (makeFieldId pi.1 item.question)
      if jsTrim answer == "" then none
      else some ("- " ++ item.question ++ ": " ++ jsTrim answer))
    if entries.isEmpty then none
    else some (pi.2.title ++ ":\n" ++ String.intercalate "\n" entries))

/-! ## Named concrete inputs used by the theorems below -/

/-- A reply whose fenced code block holds a clean triple while a stray
opening brace precedes the fence. -/
def fencedTripleReply : String :=
  "x \x7b\n```json\n\x7b\"tam\": \"1\", \"sam\": \"2\", \"som\": \"3\"\x7d\n```"

/-- The spec's quantitative-triple success input. -/
def tripleJsonReply : String := "\x7b\"tam\":\"100\",\"sam\":\"50\",\"som\":\"10\"\x7d"

/-- A quantitative-triple JSON input with the `som` slot missing. -/
def tripleMissingReply : String := "\x7b\"tam\":\"100\",\"sam\":\"50\"\x7d"

/-- A quantitative-triple JSON input whose `tam` slot is present but holds
the empty string. -/
def tripleEmptySlotReply : String := "\x7b\"tam\":\"\",\"sam\":\"50\",\"som\":\"10\"\x7d"

/-- The spec's regex-tier input. -/
def tripleLabelReply : String := "TAM: 100\nSAM: 50\nSOM: 10"

/-- A doubly JSON-encoded open-field-map candidate list: a JSON string whose
content is itself the JSON encoding of an entry array. -/
def doubleEncodedPrefill : Json :=
  Json.str "\"[\x7b\\\"fieldId\\\":\\\"f\\\",\\\"value\\\":\\\"v\\\"\x7d]\""

/-- An import payload that is an object carrying an `answers` property whose
value is `false`. -/
def falsyAnswersImport : String := "\x7b\"answers\":false\x7d"

/-- The spec's tabular-list success input. -/
def competitorsJsonReply : String := "[\x7b\"name\":\"Acme\",\"url\":\"acme.com\"\x7d]"

/-- The tabular-list payload under a container key other than
`competitors`. -/
def competitorsAliasReply : String :=
  "\x7b\"entries\":[\x7b\"name\":\"Acme\",\"url\":\"acme.com\"\x7d]\x7d"

/-- The tabular-list payload under the `competitors` container key. -/
def competitorsContainerReply : String :=
  "\x7b\"competitors\":[\x7b\"name\":\"Acme\",\"url\":\"acme.com\"\x7d]\x7d"

/-- A five-key fixed-object (Porter) reply. -/
def porterJsonReply : String :=
  "\x7b\"clientPower\":\"a\",\"supplierPower\":\"b\",\"substitutesThreat\":\"c\",\"newEntrantsThreat\":\"d\",\"competitiveRivalry\":\"e\"\x7d"

/-! ## Supporting lemmas -/

/-- Dropping a prefix never lengthens a list. -/
theorem length_dropWhile_le (p : α → Bool) (l : List α) :
    (l.dropWhile p).length ≤ l.length := by
  induction l with
  | nil => simp [List.dropWhile]
  | cons c r ih =>
    simp only [List.dropWhile]
    split
    · exact Nat.le_trans ih (Nat.le_succ _)
    · simp

/-- A left fold of pointwise updates leaves every key outside the folded
entry list untouched. -/
theorem foldl_update_preserve (s : List (String × String)) (f0 : String → String)
    (k : String) (h : ∀ kv ∈ s, kv.1 ≠ k) :
    (s.foldl (fun acc kv => Function.update acc kv.1 kv.2) f0) k = f0 k := by
  induction s generalizing f0 with
  | nil => rfl
  | cons kv r ih =>
    have hr : ∀ kv' ∈ r, kv'.1 ≠ k := fun kv' h' => h kv' (List.mem_cons_of_mem _ h')
    calc ((kv :: r).foldl (fun acc kv => Function.update acc kv.1 kv.2) f0) k
        = (r.foldl (fun acc kv => Function.update acc kv.1 kv.2)
            (Function.update f0 kv.1 kv.2)) k := rfl
      _ = (Function.update f0 kv.1 kv.2) k := ih _ hr
      _ = f0 k := Function.update_noteq (fun he => h kv (List.mem_cons_self _ _) he.symm) _ _

/-- An `isEmpty` test in an `if` is the same as an equality-with-`[]` test. -/
theorem ite_isEmpty_eq (l : List String) (a b : String) :
    (if l.isEmpty = true then a else b) = if l = [] then a else b := by
  cases l <;> simp

/-! ## Claim C1 — fill-empty-only merge of the brief-driven action -/

/-- Claim C1: under the fill-empty-only merge policy of the brief-driven
open-field-map action, a validated candidate entry survives the filter only
if its trimmed value is non-empty and the Answer Map currently holds no
non-empty (after trimming) value for its key; an entry of the merged map
that differs from the current Answer Map can only sit at a key whose current
value trims to empty; and if the filter leaves zero entries the merge fails
with `NoFieldsFilled` instead of producing a map. -/
theorem claim_C1_fill_empty_only (answers : String → String)
    (updates : List (String × String)) :
    (∀ kv ∈ sanitizedPrefillEntries answers updates,
        jsTrim (answers kv.1) = "" ∧ (jsTrim kv.2 == "") = false) ∧
    (∀ m k, prefillMerge answers updates = .ok m → m k ≠ answers k →
        jsTrim (answers k) = "") ∧
    (sanitizedPrefillEntries answers updates = [] →
        prefillMerge answers updates = .error .noFieldsFilled) := by
  refine ⟨?_, ?_, ?_⟩
  · intro kv hkv
    simp only [sanitizedPrefillEntries, List.mem_filter] at hkv
    have h2 := hkv.2
    simp only [Bool.and_eq_true, bne_iff_ne, ne_eq, beq_iff_eq] at h2
    refine ⟨h2.2, ?_⟩
    simp [h2.1]
  · intro m k hok hne
    by_contra hcur
    have hkeys : ∀ kv ∈ sanitizedPrefillEntries answers updates, kv.1 ≠ k := by
      intro kv hkv heq
      simp only [sanitizedPrefillEntries, List.mem_filter] at hkv
      have h2 := hkv.2
      simp only [Bool.and_eq_true, bne_iff_ne, ne_eq, beq_iff_eq] at h2
      exact hcur (heq ▸ h2.2)
    simp only [prefillMerge] at hok
    split at hok
    · exact Except.noConfusion hok
    · have hm : m = (sanitizedPrefillEntries answers updates).foldl
          (fun acc kv => Function.update acc kv.1 kv.2) answers := by
        cases hok; rfl
      exact hne (hm ▸ foldl_update_preserve _ _ _ hkeys)
  · intro h
    simp [prefillMerge, h]

/-- Witness for C1: with every answer already filled, a non-empty candidate
map filters down to nothing and the merge fails with `NoFieldsFilled`. -/
theorem claim_C1_fill_empty_only_witness :
    prefillMerge (fun _ => "existing") [("X", "new"), ("Y", "new")] =
      .error .noFieldsFilled :=
  (claim_C1_fill_empty_only (fun _ => "existing") [("X", "new"), ("Y", "new")]).2.2 rfl

/-! ## Claim C4 — the Content Flattener is total and newline-joins chunks -/

/-- Claim C4: the content flattener returns a string input unchanged; on an
array of chunks (objects optionally carrying a `text` property, or nullish
placeholders) it yields each chunk's string `text` property when present,
chunks without usable text contributing nothing, and joins the non-empty
fragments with a single newline in original order; `[{text:"a"},{text:"b"}]`
yields `"a\nb"`; and every other shape (null, non-array object, empty array)
yields the empty string.  Totality is by construction: the flattener is a
Lean function defined on all of `Json`. -/
theorem claim_C4_content_flattener :
    (∀ s, extractMessageContent (.str s) = s) ∧
    (∀ chunks : List Json,
      (∀ c ∈ chunks, (∃ kvs, c = Json.obj kvs) ∨ c = Json.null) →
      extractMessageContent (.arr chunks)
        = String.intercalate "\n" ((chunks.map specChunkText).filter (fun t => t != ""))) ∧
    extractMessageContent .null = "" ∧
    (∀ kvs, extractMessageContent (.obj kvs) = "") ∧
    extractMessageContent (.arr []) = "" ∧
    extractMessageContent
        (.arr [.obj [("text", .str "a")], .obj [("text", .str "b")]]) = "a\nb" := by
  refine ⟨fun s => rfl, ?_, rfl, fun kvs => rfl, rfl, rfl⟩
  intro chunks h
  have hmap : chunks.map chunkText = chunks.map specChunkText := by
    apply List.map_congr_left
    intro c hc
    rcases h c hc with ⟨kvs, rfl⟩ | rfl
    · simp [chunkText, specChunkText, jsFalsy]
    · simp [chunkText, specChunkText, jsFalsy]
  simp only [extractMessageContent, hmap]

/-- Witness for C4: the chunk-shape hypothesis discharged on a concrete
array holding one textual chunk and one null chunk. -/
theorem claim_C4_content_flattener_witness :
    extractMessageContent (.arr [.obj [("text", .str "a")], .null])
      = String.intercalate "\n"
          (([Json.obj [("text", Json.str "a")], Json.null].map specChunkText).filter
            (fun t => t != "")) := by
  refine (claim_C4_content_flattener).2.1 _ ?_
  intro c hc
  simp only [List.mem_cons, List.not_mem_nil, or_false] at hc
  rcases hc with rfl | rfl
  · exact Or.inl ⟨_, rfl⟩
  · exact Or.inr rfl

/-! ## Claim C7 — the Context Builder -/

/-- Claim C7: for every Answer Map and exclusive upper bound, the Context
Builder's output is exactly the spec-worded rendering — the non-empty
answers of pages strictly before the bound, grouped by page title in
declaration order, items in per-page order, answers as
`- <question>: <trimmed value>`, contribution-less pages omitted — joined by
blank lines, with the fixed non-empty sentinel phrase whenever no page
contributes (a non-positive bound included). -/
theorem claim_C7_context_builder (pages : List FormPage) (answers : String → String)
    (t : Int) :
    (buildBusinessContext pages answers t
      = if specContextSections pages answers t = [] then noAnswersSentinel
        else String.intercalate "\n\n" (specContextSections pages answers t)) ∧
    0 < noAnswersSentinel.length := by
  constructor
  · unfold buildBusinessContext specContextSections
    by_cases ht : t ≤ 0
    · rw [if_pos ht, Int.toNat_of_nonpos ht]
      simp
    · rw [if_neg ht]
      exact ite_isEmpty_eq _ _ _
  · decide

/-! ## Claim C10 — import performs no schema-membership validation -/

/-- Claim C10: the import path never consults the Field Schema Registry —
every string-valued entry of the `answers` object is retained in the
imported Answer Map even when its key is not among `validFieldIds` of the
form pages, so import can populate the Answer Map with keys outside the
schema. -/
theorem claim_C10_import_no_schema_validation (pages : List FormPage)
    (numPages : Nat) (kvs ansKvs : List (String × Json)) (k v : String) :
    jGet kvs "answers" = some (.obj ansKvs) →
    (k, Json.str v) ∈ ansKvs →
    (validFieldIds pages).contains k = false →
    ∃ p, parseImportVal numPages (.obj kvs) = some p ∧ (k, v) ∈ p.1 := by
  intro hans hmem _
  have hrun : parseImportVal numPages (.obj kvs)
      = some ((jsEntries (.obj ansKvs)).filterMap (fun kv =>
            match kv.2 with
            | .str s => some (kv.1, s)
            | _ => none),
          match jGet kvs "currentStep" with
          | some (.num i) => clampStep numPages i
          | _ => 0) := by
    simp [parseImportVal, hans, jsFalsy]
  refine ⟨_, hrun, ?_⟩
  simp only [jsEntries]
  exact List.mem_filterMap.mpr ⟨(k, Json.str v), hmem, rfl⟩

/-- Witness for C10: a concrete import whose only answer key is absent from
the concrete one-page schema, yet is retained. -/
theorem claim_C10_import_no_schema_validation_witness :
    ∃ p, parseImportVal 1 (.obj [("answers", .obj [("not-a-field", .str "x")])]) = some p ∧
      ("not-a-field", "x") ∈ p.1 :=
  claim_C10_import_no_schema_validation
    [⟨"Page", [⟨"A", "Question", "help"⟩]⟩] 1
    [("answers", .obj [("not-a-field", .str "x")])]
    [("not-a-field", .str "x")] "not-a-field" "x" rfl (List.mem_singleton.mpr rfl) rfl

/-! ## Claim C9 — the import contract

The claim says import "accepts any object carrying an `answers` property".
The source checks JS truthiness of `parsed.answers` (src/App.tsx:803), so an
object carrying a falsy `answers` property (`false`, `null`, `0`, `""`) is
rejected even though it carries the property; the claim fails there. -/

/-- Counterexample to claim C9: `{"answers":false}` parses to an object
carrying an `answers` property, yet the import fails. -/
theorem claim_C9_counterexample :
    parseJson falsyAnswersImport = some (.obj [("answers", .bool false)]) ∧
    parseImport 5 falsyAnswersImport = none :=
  ⟨rfl, rfl⟩

/-- Claim C9 as amended: import accepts exactly the objects whose `answers`
property is present and truthy; on success it keeps exactly the
string-valued `answers` entries, and sets the step to the numeric
`currentStep` clamped into `[0, numPages]`, defaulting to the first step. -/
theorem claim_C9_import_amended (numPages : Nat) (j : Json) :
    ((parseImportVal numPages j).isSome = true ↔
      ∃ kvs a, j = .obj kvs ∧ jGet kvs "answers" = some a ∧ jsFalsy a = false) ∧
    (∀ kvs a ans step, j = .obj kvs → jGet kvs "answers" = some a →
      parseImportVal numPages j = some (ans, step) →
      ans = (jsEntries a).filterMap (fun kv =>
          match kv.2 with
          | .str s => some (kv.1, s)
          | _ => none) ∧
      step = (match jGet kvs "currentStep" with
          | some (.num i) => clampStep numPages i
          | _ => 0)) := by
  constructor
  · cases j with
    | obj kvs =>
      cases hg : jGet kvs "answers" with
      | none => simp [parseImportVal, jsFalsy, hg]
      | some a =>
        cases hfa : jsFalsy a with
        | true => simp [parseImportVal, jsFalsy, hg, hfa]
        | false => simp [parseImportVal, jsFalsy, hg, hfa]
    | null => simp [parseImportVal, jsFalsy]
    | bool b => cases b <;> simp [parseImportVal, jsFalsy]
    | num n => by_cases hn : n = 0 <;> simp [parseImportVal, jsFalsy, hn]
    | str s => by_cases hs : s = "" <;> simp [parseImportVal, jsFalsy, hs]
    | arr xs => simp [parseImportVal, jsFalsy]
  · intro kvs a ans step hj hg hrun
    subst hj
    have hobj : jsFalsy (Json.obj kvs) = false := rfl
    cases hfa : jsFalsy a with
    | true => simp [parseImportVal, hobj, hg, hfa] at hrun
    | false =>
      simp [parseImportVal, hobj, hg, hfa] at hrun
      exact ⟨hrun.1.symm, hrun.2.symm⟩

/-- Witness for C9's amended theorem, at a concrete payload with a non-string
entry to drop and an out-of-range step to clamp. -/
theorem claim_C9_import_amended_witness :
    [("a", "1")] = (jsEntries (.obj [("a", Json.str "1"), ("b", Json.num 2)])).filterMap
        (fun kv => match kv.2 with
          | .str s => some (kv.1, s)
          | _ => none) ∧
    5 = (match jGet [("answers", Json.obj [("a", Json.str "1"), ("b", Json.num 2)]),
            ("currentStep", Json.num 9)] "currentStep" with
        | some (.num i) => clampStep 5 i
        | _ => 0) :=
  (claim_C9_import_amended 5
      (.obj [("answers", .obj [("a", .str "1"), ("b", .num 2)]), ("currentStep", .num 9)])).2
    _ _ [("a", "1")] 5 rfl rfl rfl

/-! ## Claim C6 — the tabular-list (competitors) extractor

The claim says the JSON tier accepts "an object carrying the entity list
under one of several accepted alias properties".  The source recognizes
exactly one container property, `competitors` (src/App.tsx:235); the natural
alias containers (the ones this very codebase accepts for the open-field-map
action) are all rejected. -/

/-- Counterexample to claim C6: the same entity list that succeeds bare and
under `competitors` is rejected under the alias containers
`entries`/`items`/`list`/`data` — there is exactly one accepted container
property, not several. -/
theorem claim_C6_counterexample :
    parseCompetitorEntries competitorsAliasReply = none ∧
    parseCompetitorEntries competitorsContainerReply =
      some [⟨"Acme", "acme.com", "Descripción no disponible", "Sin estimación"⟩] ∧
    competitorListFromJson (.obj [("entries", .arr [.null])]) = none ∧
    competitorListFromJson (.obj [("items", .arr [.null])]) = none ∧
    competitorListFromJson (.obj [("list", .arr [.null])]) = none ∧
    competitorListFromJson (.obj [("data", .arr [.null])]) = none :=
  ⟨rfl, rfl, rfl, rfl, rfl, rfl⟩

/-- Claim C6 as amended: the JSON tier accepts a bare array, or an object
carrying the entity list under the single accepted container property
`competitors`; the spec's one-element input yields the fixed-column table
(header row, separator row, one data row with the two missing-attribute
defaults) written to the first Field Descriptor of the target page; an empty
array yields an extraction failure. -/
theorem claim_C6_tabular_list (pages : List FormPage) (stepIndex : Nat) :
    (∀ xs, competitorListFromJson (.arr xs) = some xs) ∧
    (∀ kvs l, competitorListFromJson (.obj kvs) = some l ↔
      jGet kvs "competitors" = some (.arr l)) ∧
    (∀ page item rest, pages.get? stepIndex = some page → page.items = item :: rest →
      (item.question == "") = false →
      applyCompetitorsResult pages competitorsJsonReply stepIndex =
        .ok [(makeFieldId stepIndex item.question,
          "Nombre | Web | Descripción | Probabilidad de Éxito\n--- | --- | --- | ---\nAcme | acme.com | Descripción no disponible | Sin estimación")]) ∧
    parseCompetitorEntries "[]" = none := by
  refine ⟨fun xs => rfl, ?_, ?_, rfl⟩
  · intro kvs l
    cases hg : jGet kvs "competitors" with
    | none => simp [competitorListFromJson, hg]
    | some a => cases a <;> simp [competitorListFromJson, hg]
  · intro page item rest hpage hitems hq
    have hparse : parseCompetitorEntries competitorsJsonReply =
        some [⟨"Acme", "acme.com", "Descripción no disponible", "Sin estimación"⟩] := rfl
    simp only [applyCompetitorsResult, hparse, hpage, Option.bind, hitems, List.head?,
      if_neg, hq, Bool.false_eq_true, if_false]
    rfl

/-- Witness for C6: the mapping conjunct discharged on a concrete one-page
schema. -/
theorem claim_C6_tabular_list_witness :
    applyCompetitorsResult [⟨"Lista de Competidores", [⟨"A", "Competidores", "h"⟩]⟩]
        competitorsJsonReply 0 =
      .ok [(makeFieldId 0 "Competidores",
        "Nombre | Web | Descripción | Probabilidad de Éxito\n--- | --- | --- | ---\nAcme | acme.com | Descripción no disponible | Sin estimación")] :=
  (claim_C6_tabular_list [⟨"Lista de Competidores", [⟨"A", "Competidores", "h"⟩]⟩] 0).2.2.1
    _ _ _ rfl rfl rfl

/-! ## Claim C5 — the fixed-object (Porter) extractor -/

/-- Claim C5: the Porter JSON tier succeeds exactly when the parsed value
has the five specific keys with string values; the extractor has no regex
fallback, failing exactly when both JSON tiers fail; and on success the five
values map positionally onto the first five Field Descriptors of the target
page in declaration order. -/
theorem claim_C5_fixed_object_porter :
    (∀ j, (∃ r, porterFromJson j = some r) ↔
      (∃ a b c d e, jprop j "clientPower" = some (.str a) ∧
        jprop j "supplierPower" = some (.str b) ∧
        jprop j "substitutesThreat" = some (.str c) ∧
        jprop j "newEntrantsThreat" = some (.str d) ∧
        jprop j "competitiveRivalry" = some (.str e))) ∧
    (∀ text, parsePorterResult text = none ↔
      (tryPorterJson (jsTrim text) = none ∧
        (fencedGroup (jsTrim text)).bind tryPorterJson = none)) ∧
    (∀ pages stepIndex text r, parsePorterResult text = some r →
      5 ≤ (((pages.get? stepIndex).map (fun p => p.items)).getD []).length →
      applyPorterResult pages text stepIndex = .ok
        ((((((pages.get? stepIndex).map (fun p => p.items)).getD []).map
            (fun it => makeFieldId stepIndex it.question)).take 5).zip
          [r.clientPower, r.supplierPower, r.substitutesThreat,
           r.newEntrantsThreat, r.competitiveRivalry])) := by
  refine ⟨?_, ?_, ?_⟩
  · intro j
    constructor
    · rintro ⟨r, hr⟩
      unfold porterFromJson at hr
      split at hr
      · rename_i a b c d e h1 h2 h3 h4 h5
        exact ⟨a, b, c, d, e, h1, h2, h3, h4, h5⟩
      · exact absurd hr (by simp)
    · rintro ⟨a, b, c, d, e, h1, h2, h3, h4, h5⟩
      exact ⟨⟨a, b, c, d, e⟩, by simp [porterFromJson, h1, h2, h3, h4, h5]⟩
  · intro text
    by_cases ht : jsTrim text = ""
    · have h1 : tryPorterJson "" = none := rfl
      have h2 : fencedGroup "" = none := rfl
      simp [parsePorterResult, ht, h1, h2]
    · simp only [parsePorterResult, beq_iff_eq, if_neg ht]
      cases h1 : tryPorterJson (jsTrim text) with
      | some r => simp [h1]
      | none =>
        cases h2 : fencedGroup (jsTrim text) with
        | none => simp [h1, h2]
        | some block => simp [h1, h2]
  · intro pages stepIndex text r hp hlen
    rcases hI : ((pages.get? stepIndex).map (fun p => p.items)).getD [] with
      _ | ⟨i0, _ | ⟨i1, _ | ⟨i2, _ | ⟨i3, _ | ⟨i4, rest⟩⟩⟩⟩⟩ <;>
      rw [hI] at hlen <;> simp only [List.length] at hlen
    · omega
    · omega
    · omega
    · omega
    · omega
    · unfold applyPorterResult
      rw [hp]
      simp only [List.get?_eq_getElem?] at hI
      simp [hI, List.take, List.zip, List.zipWith]

/-- Witness for C5: the positional mapping discharged on a concrete
five-item page with the five-key JSON reply. -/
theorem claim_C5_fixed_object_porter_witness :
    applyPorterResult
        [⟨"Análisis Porter",
          [⟨"A", "Q one", "h"⟩, ⟨"A", "Q two", "h"⟩, ⟨"A", "Q three", "h"⟩,
           ⟨"A", "Q four", "h"⟩, ⟨"A", "Q five", "h"⟩]⟩]
        porterJsonReply 0 = .ok
      ((((((([⟨"Análisis Porter",
          [⟨"A", "Q one", "h"⟩, ⟨"A", "Q two", "h"⟩, ⟨"A", "Q three", "h"⟩,
           ⟨"A", "Q four", "h"⟩, ⟨"A", "Q five", "h"⟩]⟩] : List FormPage).get? 0).map
            (fun p => p.items)).getD []).map
            (fun it => makeFieldId 0 it.question)).take 5).zip
        ["a", "b", "c", "d", "e"]) :=
  (claim_C5_fixed_object_porter).2.2
    [⟨"Análisis Porter",
      [⟨"A", "Q one", "h"⟩, ⟨"A", "Q two", "h"⟩, ⟨"A", "Q three", "h"⟩,
       ⟨"A", "Q four", "h"⟩, ⟨"A", "Q five", "h"⟩]⟩]
    0 porterJsonReply ⟨"a", "b", "c", "d", "e"⟩ rfl (by decide)

/-! ## Claim C3 — concrete behaviour of the quantitative-triple extractor

The claim says "any input with one of the three slots missing or empty after
coercion yields an extraction failure".  A missing slot key does fail, but a
present-and-empty slot does not have to: the failing JSON tiers hand the raw
JSON text to the regex tier, whose labels match the `"tam"`/`"sam"`/`"som"`
key occurrences and capture non-empty quoted fragments. -/

/-- Counterexample to claim C3: `{"tam":"","sam":"50","som":"10"}` parses
with the `tam` slot empty after coercion, so the claim demands an extraction
failure, yet the extractor succeeds via the regex tier (with garbage
captures). -/
theorem claim_C3_counterexample :
    parseJson tripleEmptySlotReply =
      some (.obj [("tam", .str ""), ("sam", .str "50"), ("som", .str "10")]) ∧
    asText (nullishOr (jprop (.obj [("tam", .str ""), ("sam", .str "50"),
      ("som", .str "10")]) "tam") (jprop (.obj [("tam", .str ""), ("sam", .str "50"),
      ("som", .str "10")]) "TAM")) = "" ∧
    (parseAiResult tripleEmptySlotReply).isSome = true ∧
    parseAiResult tripleEmptySlotReply =
      some ⟨"\"\",\"", "\"50\",\"", "\"10\"\x7d"⟩ :=
  ⟨rfl, rfl, rfl, rfl⟩

/-- Claim C3 as amended: the spec's success input maps positionally onto the
first three Field Descriptors of the target page; the JSON tier never
accepts a candidate with a slot empty after coercion; an input with a slot
key missing (e.g. no `som` at all) fails end to end; and the label input
`"TAM: 100\nSAM: 50\nSOM: 10"` succeeds through the regex tier with the same
three values. -/
theorem claim_C3_quantitative_triple (pages : List FormPage) (stepIndex : Nat) :
    (3 ≤ (((pages.get? stepIndex).map (fun p => p.items)).getD []).length →
      applyTamSamSomResult pages tripleJsonReply stepIndex = .ok
        ((((((pages.get? stepIndex).map (fun p => p.items)).getD []).map
            (fun it => makeFieldId stepIndex it.question)).take 3).zip
          ["100", "50", "10"])) ∧
    (∀ j r, tamFromJson j = some r →
      (r.tam == "") = false ∧ (r.sam == "") = false ∧ (r.som == "") = false) ∧
    parseAiResult tripleMissingReply = none ∧
    parseAiResult tripleLabelReply = some ⟨"100", "50", "10"⟩ := by
  refine ⟨?_, ?_, rfl, rfl⟩
  · intro hlen
    have hp : parseAiResult tripleJsonReply = some ⟨"100", "50", "10"⟩ := rfl
    rcases hI : ((pages.get? stepIndex).map (fun p => p.items)).getD [] with
      _ | ⟨i0, _ | ⟨i1, _ | ⟨i2, rest⟩⟩⟩ <;>
      rw [hI] at hlen <;> simp only [List.length] at hlen
    · omega
    · omega
    · omega
    · unfold applyTamSamSomResult
      rw [hp]
      simp only [List.get?_eq_getElem?] at hI
      simp [hI, List.take, List.zip, List.zipWith]
  · intro j r hr
    unfold tamFromJson at hr
    dsimp only at hr
    split at hr
    · rename_i hcond
      cases hr
      simp only [Bool.and_eq_true, bne] at hcond
      refine ⟨?_, ?_, ?_⟩
      · simpa using hcond.1.1
      · simpa using hcond.1.2
      · simpa using hcond.2
    · exact absurd hr (by simp)

/-- Witness for C3: the positional mapping discharged on a concrete
three-item page. -/
theorem claim_C3_quantitative_triple_witness :
    applyTamSamSomResult
        [⟨"TAM SAM SOM", [⟨"A", "Q TAM", "h"⟩, ⟨"A", "Q SAM", "h"⟩, ⟨"A", "Q SOM", "h"⟩]⟩]
        tripleJsonReply 0 = .ok
      ((((((([⟨"TAM SAM SOM",
          [⟨"A", "Q TAM", "h"⟩, ⟨"A", "Q SAM", "h"⟩, ⟨"A", "Q SOM", "h"⟩]⟩] :
            List FormPage).get? 0).map (fun p => p.items)).getD []).map
          (fun it => makeFieldId 0 it.question)).take 3).zip
        ["100", "50", "10"]) :=
  (claim_C3_quantitative_triple
    [⟨"TAM SAM SOM", [⟨"A", "Q TAM", "h"⟩, ⟨"A", "Q SAM", "h"⟩, ⟨"A", "Q SOM", "h"⟩]⟩] 0).1
    (by decide)

/-! ## Claim C2 — tier order of the quantitative-triple extractor

The claim describes tier 2 as "locate the first fenced code block …​ or,
failing that, the first top-level `{...}` span".  The quantitative-triple
extractor has no fenced-code-block step at all (src/App.tsx:195 matches only
`/\x7b[\s\S]+\x7d/`); on a reply whose fence is preceded by a stray opening
brace, the claimed algorithm extracts the clean triple from the fence while
the source's greedy brace span fails to parse and the regex tier returns
garbage captures instead. -/

/-- Counterexample to claim C2: at `fencedTripleReply`, the spec's tier
order yields the clean fenced triple, the source yields different (regex
tier) values. -/
theorem claim_C2_counterexample :
    specParseAiResult fencedTripleReply = some ⟨"1", "2", "3"⟩ ∧
    parseAiResult fencedTripleReply =
      some ⟨"\"1\", \"", "\"2\", \"", "\"3\"\x7d\n```"⟩ ∧
    decide (parseAiResult fencedTripleReply = specParseAiResult fencedTripleReply) = false :=
  ⟨rfl, rfl, rfl⟩

/-- Claim C2 as amended: the quantitative-triple extractor attempts exactly
three tiers in fixed order — (1) the entire trimmed text as JSON; (2) the
greedy first-`{`-to-last-`}` span as JSON (no fenced-code-block step in this
extractor); (3) the regex section scan — the result being the first tier to
succeed, and the extractor failing only after all three tiers fail. -/
theorem claim_C2_tier_order_amended (text : String) :
    parseAiResult text =
      (tryTamJson (jsTrim text)).orElse (fun _ =>
        ((braceSpan (jsTrim text)).bind tryTamJson).orElse (fun _ =>
          regexTierTam (jsTrim text))) := by
  by_cases ht : jsTrim text = ""
  · have h1 : tryTamJson "" = none := rfl
    have h2 : braceSpan "" = none := rfl
    have h3 : regexTierTam "" = none := rfl
    simp [parseAiResult, ht, h1, h2, h3, Option.orElse]
  · simp only [parseAiResult, beq_iff_eq, if_neg ht]
    cases h1 : tryTamJson (jsTrim text) with
    | some r => simp [h1, Option.orElse]
    | none =>
      cases h2 : braceSpan (jsTrim text) with
      | none => simp [h1, h2, Option.orElse]
      | some block =>
        cases h3 : tryTamJson block with
        | some r => simp [h1, h2, h3, Option.orElse]
        | none => simp [h1, h2, h3, Option.orElse]

/-! ## Parser size bounds

A successfully parsed value is no larger (in `jsonSize`) than the number of
input characters it consumed.  This is what makes the string-to-JSON
re-submission of the open-field-map normalizer terminate: re-parsing a
string produces a strictly smaller value. -/

/-- Skipping whitespace never lengthens the input. -/
theorem skipWs_length_le (cs : List Char) : (skipWs cs).length ≤ cs.length :=
  length_dropWhile_le _ _

/-- Taking a prefix never lengthens a list. -/
theorem length_takeWhile_le (p : α → Bool) (l : List α) :
    (l.takeWhile p).length ≤ l.length := by
  induction l with
  | nil => simp [List.takeWhile]
  | cons c r ih =>
    simp only [List.takeWhile]
    split
    · simp only [List.length_cons]
      omega
    · simp

/-- A parsed string body (content and closing quote) consumes strictly more
characters than the decoded content's length. -/
theorem parseStringBody_shrink :
    ∀ (n : Nat) (cs : List Char), cs.length ≤ n →
    ∀ l rest, parseStringBody cs = some (l, rest) →
    l.length + rest.length + 1 ≤ cs.length := by
  intro n
  induction n with
  | zero =>
    intro cs hcs l rest h
    have hnil : cs = [] := List.eq_nil_of_length_eq_zero (Nat.le_zero.mp hcs)
    subst hnil
    simp [parseStringBody] at h
  | succ n ih =>
    intro cs hcs l rest h
    cases cs with
    | nil => simp [parseStringBody] at h
    | cons c r =>
      rw [parseStringBody.eq_def] at h
      dsimp only at h
      by_cases hq : c == '"'
      · rw [if_pos hq] at h
        simp only [Option.some.injEq, Prod.mk.injEq] at h
        obtain ⟨rfl, rfl⟩ := h
        simp
      · rw [if_neg hq] at h
        by_cases hb : c == '\\'
        · rw [if_pos hb] at h
          cases r with
          | nil => simp at h
          | cons e r2 =>
            dsimp only at h
            by_cases hu : e == 'u'
            · rw [if_pos hu] at h
              rcases r2 with _ | ⟨u1, _ | ⟨u2, _ | ⟨u3, _ | ⟨u4, r3⟩⟩⟩⟩
              · simp at h
              · simp at h
              · simp at h
              · simp at h
              · rcases hh1 : hexVal? u1 with _ | a
                · simp [hh1] at h
                rcases hh2 : hexVal? u2 with _ | b
                · simp [hh1, hh2] at h
                rcases hh3 : hexVal? u3 with _ | c3
                · simp [hh1, hh2, hh3] at h
                rcases hh4 : hexVal? u4 with _ | d
                · simp [hh1, hh2, hh3, hh4] at h
                simp only [hh1, hh2, hh3, hh4] at h
                split at h
                · simp at h
                · simp only [Option.map_eq_some'] at h
                  obtain ⟨⟨l', rest'⟩, hp, heq⟩ := h
                  obtain ⟨rfl, rfl⟩ := Prod.mk.injEq .. ▸ heq
                  have hlen : r3.length ≤ n := by
                    simp only [List.length_cons] at hcs
                    omega
                  have hrec := ih r3 hlen l' rest' hp
                  simp only [List.length_cons]
                  omega
            · rw [if_neg hu] at h
              rcases he : escChar? e with _ | ec
              · simp [he] at h
              · simp only [he, Option.map_eq_some'] at h
                obtain ⟨⟨l', rest'⟩, hp, heq⟩ := h
                obtain ⟨rfl, rfl⟩ := Prod.mk.injEq .. ▸ heq
                have hlen : r2.length ≤ n := by
                  simp only [List.length_cons] at hcs
                  omega
                have hrec := ih r2 hlen l' rest' hp
                simp only [List.length_cons]
                omega
        · rw [if_neg hb] at h
          by_cases hctl : c.toNat < 0x20
          · rw [if_pos hctl] at h
            simp at h
          · rw [if_neg hctl] at h
            simp only [Option.map_eq_some'] at h
            obtain ⟨⟨l', rest'⟩, hp, heq⟩ := h
            obtain ⟨rfl, rfl⟩ := Prod.mk.injEq .. ▸ heq
            have hlen : r.length ≤ n := by
              simp only [List.length_cons] at hcs
              omega
            have hrec := ih r hlen l' rest' hp
            simp only [List.length_cons]
            omega

/-- A parsed number consumes at least one character. -/
theorem parseNumTail_shrink (sign : Int) (cs : List Char) (v : Json)
    (rest : List Char) (h : parseNumTail sign cs = some (v, rest)) :
    jsonSize v + rest.length ≤ cs.length := by
  unfold parseNumTail at h
  dsimp only at h
  by_cases hds : (cs.takeWhile Char.isDigit).isEmpty
  · rw [if_pos hds] at h
    simp at h
  · rw [if_neg hds] at h
    split at h
    · simp at h
    · split at h
      · simp at h
      · simp only [Option.some.injEq, Prod.mk.injEq] at h
        obtain ⟨rfl, rfl⟩ := h
        have h1 : 1 ≤ (cs.takeWhile Char.isDigit).length := by
          cases hcs : cs.takeWhile Char.isDigit with
          | nil => rw [hcs] at hds; simp at hds
          | cons a l => simp [hcs]
        have h2 : (cs.takeWhile Char.isDigit).length ≤ cs.length :=
          length_takeWhile_le _ _
        simp only [jsonSize, List.length_drop]
        omega

/-- `parseNum` consumes at least one character per parsed number. -/
theorem parseNum_shrink (cs : List Char) (v : Json) (rest : List Char)
    (h : parseNum cs = some (v, rest)) :
    jsonSize v + rest.length ≤ cs.length := by
  unfold parseNum at h
  split at h
  · rename_i r
    have := parseNumTail_shrink (-1) r v rest h
    simp only [List.length_cons]
    omega
  · exact parseNumTail_shrink 1 cs v rest h

/-- `jsonSizeList` adds over an append. -/
theorem jsonSizeList_append (a b : List Json) :
    jsonSizeList (a ++ b) = jsonSizeList a + jsonSizeList b := by
  induction a with
  | nil => simp [jsonSizeList]
  | cons x xs ih =>
    simp only [List.cons_append, jsonSizeList]
    rw [show xs.append b = xs ++ b from rfl, ih]
    omega

/-- `jsonSizeList` is reversal-invariant. -/
theorem jsonSizeList_reverse (l : List Json) :
    jsonSizeList l.reverse = jsonSizeList l := by
  induction l with
  | nil => rfl
  | cons x xs ih =>
    simp only [List.reverse_cons, jsonSizeList_append, jsonSizeList, ih]
    omega

/-- Overwriting-or-appending a member grows an object's member size by at
most the new member's contribution. -/
theorem jsonSizeMembers_upsert_le (kvs : List (String × Json)) (k : String) (v : Json) :
    jsonSizeMembers (upsert kvs k v) ≤ jsonSizeMembers kvs + (jsonSize v + 1) := by
  induction kvs with
  | nil => simp [upsert, jsonSizeMembers]
  | cons kv r ih =>
    obtain ⟨k', v'⟩ := kv
    unfold upsert
    split
    · simp only [jsonSizeMembers]
      omega
    · simp only [jsonSizeMembers]
      omega

/-- Every `Json` value has positive size. -/
theorem jsonSize_pos (v : Json) : 1 ≤ jsonSize v := by
  cases v <;> simp [jsonSize]

/-- The parser's shrink property: a successfully parsed value, plus the
unconsumed remainder, never exceeds the input length (with the
already-accumulated elements/members accounted for in the loop clauses). -/
theorem parse_shrink (n : Nat) :
    (∀ cs v rest, parseVal n cs = some (v, rest) →
      jsonSize v + rest.length ≤ cs.length) ∧
    (∀ cs acc v rest, parseElems n cs acc = some (v, rest) →
      jsonSize v + rest.length ≤ cs.length + jsonSizeList acc + 1) ∧
    (∀ cs acc v rest, parseMembers n cs acc = some (v, rest) →
      jsonSize v + rest.length ≤ cs.length + jsonSizeMembers acc + 1) := by
  induction n with
  | zero =>
    refine ⟨?_, ?_, ?_⟩
    · intro cs v rest h
      simp [parseVal] at h
    · intro cs acc v rest h
      simp [parseElems] at h
    · intro cs acc v rest h
      simp [parseMembers] at h
  | succ n ih =>
    obtain ⟨ihV, ihE, ihM⟩ := ih
    refine ⟨?_, ?_, ?_⟩
    · intro cs v rest h
      have hsk : (skipWs cs).length ≤ cs.length := skipWs_length_le cs
      simp only [parseVal] at h
      split at h
      · -- null
        rename_i r heq
        simp only [Option.some.injEq, Prod.mk.injEq] at h
        obtain ⟨rfl, rfl⟩ := h
        have hlen := congrArg List.length heq
        simp only [List.length_cons] at hlen
        simp only [jsonSize]
        omega
      · -- true
        rename_i r heq
        simp only [Option.some.injEq, Prod.mk.injEq] at h
        obtain ⟨rfl, rfl⟩ := h
        have hlen := congrArg List.length heq
        simp only [List.length_cons] at hlen
        simp only [jsonSize]
        omega
      · -- false
        rename_i r heq
        simp only [Option.some.injEq, Prod.mk.injEq] at h
        obtain ⟨rfl, rfl⟩ := h
        have hlen := congrArg List.length heq
        simp only [List.length_cons] at hlen
        simp only [jsonSize]
        omega
      · -- string
        rename_i r heq
        have hlen := congrArg List.length heq
        simp only [List.length_cons] at hlen
        cases hps : parseStringBody r with
        | none => rw [hps] at h; simp at h
        | some p =>
          obtain ⟨l, rest1⟩ := p
          rw [hps] at h
          simp only [Option.some.injEq, Prod.mk.injEq] at h
          obtain ⟨rfl, rfl⟩ := h
          have hstr := parseStringBody_shrink r.length r (Nat.le_refl _) l rest1 hps
          have hmk : (String.mk l).length = l.length := rfl
          simp only [jsonSize, hmk]
          omega
      · -- array
        rename_i r heq
        have hlen := congrArg List.length heq
        simp only [List.length_cons] at hlen
        have hsk2 : (skipWs r).length ≤ r.length := skipWs_length_le r
        split at h
        · rename_i r2 heq2
          simp only [Option.some.injEq, Prod.mk.injEq] at h
          obtain ⟨rfl, rfl⟩ := h
          have hlen2 := congrArg List.length heq2
          simp only [List.length_cons] at hlen2
          simp only [jsonSize, jsonSizeList]
          omega
        · have hrec := ihE _ _ _ _ h
          simp only [jsonSizeList] at hrec
          omega
      · -- object
        rename_i r heq
        have hlen := congrArg List.length heq
        simp only [List.length_cons] at hlen
        have hsk2 : (skipWs r).length ≤ r.length := skipWs_length_le r
        split at h
        · rename_i r2 heq2
          simp only [Option.some.injEq, Prod.mk.injEq] at h
          obtain ⟨rfl, rfl⟩ := h
          have hlen2 := congrArg List.length heq2
          simp only [List.length_cons] at hlen2
          simp only [jsonSize, jsonSizeMembers]
          omega
        · have hrec := ihM _ _ _ _ h
          simp only [jsonSizeMembers] at hrec
          omega
      · -- number (catch-all)
        have hrec := parseNum_shrink _ _ _ h
        omega
    · intro cs acc v rest h
      simp only [parseElems] at h
      cases hp : parseVal n cs with
      | none => rw [hp] at h; simp at h
      | some p =>
        obtain ⟨v1, rest1⟩ := p
        rw [hp] at h
        dsimp only at h
        have h1 := ihV cs v1 rest1 hp
        have hsk1 : (skipWs rest1).length ≤ rest1.length := skipWs_length_le rest1
        split at h
        · rename_i r2 heq2
          have hlen2 := congrArg List.length heq2
          simp only [List.length_cons] at hlen2
          have hrec := ihE _ _ _ _ h
          simp only [jsonSizeList] at hrec
          omega
        · rename_i r2 heq2
          have hlen2 := congrArg List.length heq2
          simp only [List.length_cons] at hlen2
          simp only [Option.some.injEq, Prod.mk.injEq] at h
          obtain ⟨rfl, rfl⟩ := h
          simp only [jsonSize, jsonSizeList_reverse, jsonSizeList]
          omega
        · simp at h
    · intro cs acc v rest h
      simp only [parseMembers] at h
      have hsk : (skipWs cs).length ≤ cs.length := skipWs_length_le cs
      split at h
      · rename_i r heq
        have hlen := congrArg List.length heq
        simp only [List.length_cons] at hlen
        cases hps : parseStringBody r with
        | none => rw [hps] at h; simp at h
        | some p =>
          obtain ⟨kl, rest1⟩ := p
          rw [hps] at h
          dsimp only at h
          have hkey := parseStringBody_shrink r.length r (Nat.le_refl _) kl rest1 hps
          have hsk1 : (skipWs rest1).length ≤ rest1.length := skipWs_length_le rest1
          split at h
          · rename_i r2 heq2
            have hlen2 := congrArg List.length heq2
            simp only [List.length_cons] at hlen2
            cases hv : parseVal n r2 with
            | none => rw [hv] at h; simp at h
            | some p2 =>
              obtain ⟨v1, rest2⟩ := p2
              rw [hv] at h
              have h1 := ihV r2 v1 rest2 hv
              have hup := jsonSizeMembers_upsert_le acc (String.mk kl) v1
              have hsk2 : (skipWs rest2).length ≤ rest2.length := skipWs_length_le rest2
              dsimp only at h
              split at h
              · rename_i r3 heq3
                have hlen3 := congrArg List.length heq3
                simp only [List.length_cons] at hlen3
                have hrec := ihM _ _ _ _ h
                omega
              · rename_i r3 heq3
                have hlen3 := congrArg List.length heq3
                simp only [List.length_cons] at hlen3
                simp only [Option.some.injEq, Prod.mk.injEq] at h
                obtain ⟨rfl, rfl⟩ := h
                simp only [jsonSize]
                omega
              · simp at h
          · simp at h
      · simp at h

/-- A value accepted by `JSON.parse` is no larger than the text it was
parsed from. -/
theorem parseJson_size_le (s : String) (v : Json) (h : parseJson s = some v) :
    jsonSize v ≤ s.length := by
  unfold parseJson at h
  cases hp : parseVal (s.length + 1) s.data with
  | none => rw [hp] at h; simp at h
  | some p =>
    obtain ⟨v', rest⟩ := p
    rw [hp] at h
    dsimp only at h
    split at h
    · simp only [Option.some.injEq] at h
      subst h
      have hs := (parse_shrink (s.length + 1)).1 s.data v' rest hp
      have hd : s.data.length = s.length := rfl
      omega
    · simp at h

/-- A member's value contributes its size (plus one) to the object's
member-list size. -/
theorem mem_size_le (kvs : List (String × Json)) (k : String) (v : Json)
    (h : (k, v) ∈ kvs) : jsonSize v + 1 ≤ jsonSizeMembers kvs := by
  induction kvs with
  | nil => simp at h
  | cons kv r ih =>
    simp only [List.mem_cons] at h
    rcases h with h | h
    · rw [← h]
      simp only [jsonSizeMembers]
      omega
    · have := ih h
      simp only [jsonSizeMembers]
      omega

/-- A property lookup returns a value strictly smaller than the object. -/
theorem jGet_size_lt (kvs : List (String × Json)) (k : String) (v : Json)
    (h : jGet kvs k = some v) : jsonSize v < jsonSize (.obj kvs) := by
  unfold jGet at h
  cases hf : kvs.find? (fun kv => kv.1 == k) with
  | none => rw [hf] at h; simp at h
  | some kv =>
    rw [hf] at h
    simp only [Option.map_some', Option.some.injEq] at h
    have hmem : kv ∈ kvs := List.mem_of_find?_eq_some hf
    obtain ⟨k', v'⟩ := kv
    subst h
    have := mem_size_le kvs k' v' hmem
    simp only [jsonSize]
    omega

/-- Folding with pointwise-equal step functions gives equal results. -/
theorem foldl_congr_fn {α β : Type} (l : List α) (f g : β → α → β) (st : β)
    (h : ∀ st' k, f st' k = g st' k) : l.foldl f st = l.foldl g st := by
  induction l generalizing st with
  | nil => rfl
  | cons a r ih =>
    simp only [List.foldl]
    rw [h]
    exact ih _

/-- Fuel-indifference of the instrumented `normalizePrefillEntries`: any two
fuels at least the input's size compute the same result — i.e. the source's
unbounded recursion terminates on every input, the string-to-JSON
re-submission shrinking its argument at each re-entry. -/
theorem normalizeAux_stable (valid : String → Bool) :
    ∀ (N : Nat) (v : Json) (n m : Nat), jsonSize v ≤ N → jsonSize v ≤ n → jsonSize v ≤ m →
    normalizeAux valid n v = normalizeAux valid m v := by
  intro N
  induction N with
  | zero =>
    intro v n m hN _ _
    have := jsonSize_pos v
    omega
  | succ N ihN =>
    intro v n m hN hn hm
    have hpos := jsonSize_pos v
    cases n with
    | zero => omega
    | succ n' =>
      cases m with
      | zero => omega
      | succ m' =>
        simp only [normalizeAux]
        cases hf : jsFalsy v with
        | true => rfl
        | false =>
          simp only [Bool.false_eq_true, if_false]
          cases v with
          | null => simp [jsFalsy] at hf
          | bool b => rfl
          | num i => rfl
          | arr xs => rfl
          | str s =>
            cases hp : parseJson s with
            | none => simp [hp]
            | some v' =>
              have hsize : jsonSize v' ≤ s.length := parseJson_size_le s v' hp
              have hss : jsonSize (Json.str s) = s.length + 1 := rfl
              simp only [hp]
              rw [ihN v' n' m' (by omega) (by omega) (by omega)]
          | obj kvs =>
            have hkvs : jsonSize (Json.obj kvs) = 1 + jsonSizeMembers kvs := rfl
            have hstep : ∀ st k, tryNestedFold kvs (normalizeAux valid n') st k
                = tryNestedFold kvs (normalizeAux valid m') st k := by
              intro st k
              unfold tryNestedFold
              obtain ⟨o, c⟩ := st
              cases o with
              | some es => rfl
              | none =>
                cases hg : jGet kvs k with
                | none => rfl
                | some sub =>
                  have hlt := jGet_size_lt kvs k sub hg
                  dsimp only
                  rw [ihN sub n' m' (by omega) (by omega) (by omega)]
            have hfold := foldl_congr_fn normalizePrefillKeys
              (tryNestedFold kvs (normalizeAux valid n'))
              (tryNestedFold kvs (normalizeAux valid m')) (none, 0) hstep
            simp only [hfold]

/-! ## Claim C8 — the string-to-JSON re-submission of the open-field-map
normalizer

The claim says the re-parsing is "bounded to at most one such re-entry for
every input".  The source (src/App.tsx:513-520) re-parses unconditionally:
on a doubly JSON-encoded payload the routine re-enters twice (and in general
once per nesting level).  What is true — and what the spec's termination
concern actually needs — is that every re-entry strictly shrinks the value,
so the recursion terminates on all inputs. -/

/-- Counterexample to claim C8: on the doubly-encoded candidate list the
routine performs two string-to-JSON re-entries (the counter is the second
component of the instrumented `normalizeAux`), and still succeeds. -/
theorem claim_C8_counterexample :
    (normalizeAux (fun _ => true) 40 doubleEncodedPrefill).2 = 2 ∧
    (normalizeAux (fun _ => true) 40 doubleEncodedPrefill).1 = some [("f", "v")] ∧
    jsonSize doubleEncodedPrefill = 40 :=
  ⟨rfl, rfl, rfl⟩

/-- Claim C8 as amended: a string met where an object or array was expected
is parsed as JSON and resubmitted to the same routine; the re-entry count is
bounded by the input's nesting (not by one), and the routine terminates on
all inputs — formally, the fueled model is fuel-indifferent from the
input's size up, and a string input reduces to the routine on its parsed,
strictly smaller payload. -/
theorem claim_C8_normalize_amended (valid : String → Bool) :
    (∀ v n m, jsonSize v ≤ n → jsonSize v ≤ m →
      normalizeAux valid n v = normalizeAux valid m v) ∧
    (∀ s v', parseJson s = some v' → (s == "") = false →
      normalizePrefillEntries valid (.str s) = normalizePrefillEntries valid v') := by
  constructor
  · intro v n m hn hm
    exact normalizeAux_stable valid (jsonSize v) v n m (Nat.le_refl _) hn hm
  · intro s v' hp hs
    unfold normalizePrefillEntries normalizePrefillFuel
    have hss : jsonSize (Json.str s) = s.length + 1 := rfl
    have hsize : jsonSize v' ≤ s.length := parseJson_size_le s v' hp
    rw [hss]
    have h1 : normalizeAux valid (s.length + 1) (Json.str s)
        = ((normalizeAux valid s.length v').1, (normalizeAux valid s.length v').2 + 1) := by
      simp [normalizeAux, jsFalsy, hs, hp]
    have h2 := normalizeAux_stable valid s.length v' s.length (jsonSize v')
      hsize hsize (Nat.le_refl _)
    rw [h1, h2]

/-- Witness for C8's amended theorem: fuel-indifference discharged on the
concrete doubly-encoded payload at two different sufficient fuels. -/
theorem claim_C8_normalize_amended_witness :
    normalizeAux (fun _ => true) 41 doubleEncodedPrefill
      = normalizeAux (fun _ => true) 50 doubleEncodedPrefill :=
  (claim_C8_normalize_amended (fun _ => true)).1 doubleEncodedPrefill 41 50
    (by rw [show jsonSize doubleEncodedPrefill = 40 from rfl]; omega)
    (by rw [show jsonSize doubleEncodedPrefill = 40 from rfl]; omega)

end BMC
